import Mathlib

/-!
Verification of the `oppy` worker pipeline against its specification.

The Python sources under `worker/` are shallowly embedded: sample times and
audio samples are modelled as rationals (`ℚ`), Python lists as Lean lists,
and the effectful pipeline driver as a pure function over an environment
recording the outcome of each external call.
-/

namespace Oppy

/-- CPython `str.strip()` whitespace test, restricted to the ASCII
whitespace characters (space, tab, newline, carriage return, vertical
tab, form feed). -/
def isPySpace (c : Char) : Bool :=
  c = ' ' || c = '\t' || c = '\n' || c = '\r' || c = '\x0b' || c = '\x0c'

/-- Python `str.strip()`: remove leading and trailing whitespace. -/
def pyStrip (s : String) : String :=
  String.mk (((s.data.dropWhile isPySpace).reverse.dropWhile isPySpace).reverse)

/-- A transcribed segment as consumed by `merge_segments_with_speakers`
(`start`, `end`, `text` keys of the ASR segment dict; `end` is called
`stop` because `end` is a Lean keyword). -/
structure Seg where
  start : ℚ
  stop : ℚ
  text : String
  deriving Repr, DecidableEq

/-- A diarization turn (`start`, `end`, `speaker` keys of the turn dict). -/
structure Turn where
  start : ℚ
  stop : ℚ
  speaker : String
  deriving Repr, DecidableEq

/-- A merged segment as produced by `merge_segments_with_speakers`. -/
structure MergedSeg where
  start : ℚ
  stop : ℚ
  text : String
  speaker : String
  deriving Repr, DecidableEq

/-- Source `merge.py` `_overlap`: `max(0.0, min(a_end, b_end) - max(a_start, b_start))`. -/
def overlapAmount (aStart aEnd bStart bEnd : ℚ) : ℚ :=
  max 0 (min aEnd bEnd - max aStart bStart)

/-- The key minimized by `merge.py` `_nearest_speaker`:
`min(abs(mid - turn.start), abs(mid - turn.end))`. -/
def nearestKey (mid : ℚ) (t : Turn) : ℚ :=
  min |mid - t.start| |mid - t.stop|

/-- Python `min(iterable, key=f)` on a non-empty list (first element plus
rest): the first element attaining the minimal key wins, since a later
element replaces the current best only on a strictly smaller key. -/
def pyMinBy (f : Turn → ℚ) : Turn → List Turn → Turn
  | best, [] => best
  | best, t :: rest => pyMinBy f (if f t < f best then t else best) rest

/-- Source `merge.py` `_nearest_speaker` on a non-empty turn list
(head plus tail): speaker of the turn minimizing `nearestKey`. -/
def nearestSpeaker (mid : ℚ) (t : Turn) (rest : List Turn) : String :=
  (pyMinBy (nearestKey mid) t rest).speaker

/-- The overlap of segment `[s, e]` with a turn, as computed inside the
per-turn loop of `merge_segments_with_speakers`. -/
def turnOverlap (s e : ℚ) (t : Turn) : ℚ :=
  overlapAmount s e t.start t.stop

/-- The best-overlap scan of `merge_segments_with_speakers`: starting from
`best_speaker = None`, `best_overlap = 0.0`, each turn whose overlap with
`[s, e]` strictly exceeds the running best replaces it. Returns the pair
`(best_speaker, best_overlap)`. -/
def bestScan (s e : ℚ) : List Turn → Option String × ℚ → Option String × ℚ
  | [], acc => acc
  | t :: rest, (best, bestOv) =>
      let ov := turnOverlap s e t
      if ov > bestOv then bestScan s e rest (some t.speaker, ov)
      else bestScan s e rest (best, bestOv)

/-- The speaker chosen for one segment `[s, e]` in `merge_segments_with_speakers`
when the turn list is non-empty: the best-overlap scan result if it is a
truthy string (Python `if not best_speaker` treats both `None` and the empty
string as missing), otherwise the nearest-turn fallback at the segment
midpoint. -/
def chooseSpeaker (s e : ℚ) (t : Turn) (rest : List Turn) : String :=
  match bestScan s e (t :: rest) (none, 0) with
  | (some sp, _) =>
      if sp = "" then nearestSpeaker ((s + e) / 2) t rest else sp
  | (none, _) => nearestSpeaker ((s + e) / 2) t rest

/-- The per-segment loop of `merge_segments_with_speakers` for a non-empty
turn list: drop segments with empty trimmed text, clamp `end` up to `start`,
and record the chosen raw speaker label. -/
def assignRaw (t : Turn) (rest : List Turn) : List Seg → List MergedSeg
  | [] => []
  | seg :: segs =>
      let text := pyStrip seg.text
      if text = "" then assignRaw t rest segs
      else
        let s := seg.start
        let e := if seg.stop < s then s else seg.stop
        { start := s, stop := e, text := text,
          speaker := chooseSpeaker s e t rest } :: assignRaw t rest segs

/-- The `label_order` list of `merge_segments_with_speakers`: raw labels in order of
first appearance across the assigned segments. -/
def labelOrder (ms : List MergedSeg) : List String :=
  ms.foldl (fun acc m => if m.speaker ∈ acc then acc else acc ++ [m.speaker]) []

/-- Lookup `speaker_map.get(raw, "Speaker ?")`: `"Speaker N"` for the N-th label of
`label_order` (1-based), `"Speaker ?"` for a label absent from the map. -/
def speakerLabel (order : List String) (raw : String) : String :=
  match order.indexOf? raw with
  | some i => "Speaker " ++ toString (i + 1)
  | none => "Speaker ?"

/-- Source `merge.py` `merge_segments_with_speakers`. -/
def merge_segments_with_speakers (asrSegments : List Seg) (turns : List Turn) :
    List MergedSeg :=
  match turns with
  | [] =>
      (asrSegments.filter (fun seg => pyStrip seg.text ≠ "")).map
        (fun seg =>
          { start := seg.start, stop := seg.stop, text := pyStrip seg.text,
            speaker := "Speaker ?" })
  | t :: rest =>
      let raw := assignRaw t rest asrSegments
      let order := labelOrder raw
      raw.map (fun m => { m with speaker := speakerLabel order m.speaker })

/-! ### Characterization of the best-overlap scan -/

/-- Running maximum of turn overlaps with seed `v`. -/
def scanMax (s e v : ℚ) : List Turn → ℚ
  | [] => v
  | t :: rest => scanMax s e (max v (turnOverlap s e t)) rest

theorem turnOverlap_nonneg (s e : ℚ) (t : Turn) : 0 ≤ turnOverlap s e t :=
  le_max_left _ _

theorem le_scanMax (s e : ℚ) : ∀ (ts : List Turn) (v : ℚ), v ≤ scanMax s e v ts
  | [], v => le_refl v
  | t :: rest, v =>
      le_trans (le_max_left v (turnOverlap s e t))
        (le_scanMax s e rest (max v (turnOverlap s e t)))

theorem mem_le_scanMax (s e : ℚ) :
    ∀ {ts : List Turn} (v : ℚ) {t : Turn}, t ∈ ts → turnOverlap s e t ≤ scanMax s e v ts := by
  intro ts
  induction ts with
  | nil => intro v t h; cases h
  | cons u rest ih =>
      intro v t h
      rcases List.mem_cons.mp h with h | h
      · subst h
        exact le_trans (le_max_right v (turnOverlap s e t))
          (le_scanMax s e rest (max v (turnOverlap s e t)))
      · exact ih _ h

theorem scanMax_le (s e : ℚ) :
    ∀ {ts : List Turn} {v c : ℚ}, v ≤ c → (∀ t ∈ ts, turnOverlap s e t ≤ c) →
      scanMax s e v ts ≤ c := by
  intro ts
  induction ts with
  | nil => intro v c hv _; exact hv
  | cons u rest ih =>
      intro v c hv hall
      exact ih (max_le hv (hall u (List.mem_cons_self u rest)))
        (fun t ht => hall t (List.mem_cons_of_mem u ht))

theorem scanMax_attain (s e : ℚ) :
    ∀ (ts : List Turn) (v : ℚ),
      scanMax s e v ts = v ∨ ∃ t ∈ ts, turnOverlap s e t = scanMax s e v ts := by
  intro ts
  induction ts with
  | nil => intro v; exact Or.inl rfl
  | cons u rest ih =>
      intro v
      rcases ih (max v (turnOverlap s e u)) with h | ⟨t, ht, hov⟩
      · rcases max_choice v (turnOverlap s e u) with hm | hm
        · exact Or.inl (by rw [scanMax, h, hm])
        · refine Or.inr ⟨u, List.mem_cons_self u rest, ?_⟩
          rw [scanMax, h, hm]
      · exact Or.inr ⟨t, List.mem_cons_of_mem u ht, hov⟩

theorem bestScan_spec (s e : ℚ) :
    ∀ (ts : List Turn) (b : Option String) (v : ℚ),
      bestScan s e ts (b, v) =
        if v < scanMax s e v ts then
          ((ts.find? fun t => decide (turnOverlap s e t = scanMax s e v ts)).map
              Turn.speaker,
            scanMax s e v ts)
        else (b, v) := by
  intro ts
  induction ts with
  | nil =>
      intro b v
      simp [bestScan, scanMax]
  | cons u rest ih =>
      intro b v
      by_cases hu : turnOverlap s e u > v
      · have hmax : max v (turnOverlap s e u) = turnOverlap s e u :=
          max_eq_right (le_of_lt hu)
        have hM : scanMax s e v (u :: rest) = scanMax s e (turnOverlap s e u) rest := by
          rw [scanMax, hmax]
        have hMge : turnOverlap s e u ≤ scanMax s e (turnOverlap s e u) rest :=
          le_scanMax s e rest _
        rw [scanMax] at hM ⊢
        rw [hmax] at hM ⊢
        have hcond : v < scanMax s e (turnOverlap s e u) rest :=
          lt_of_lt_of_le hu hMge
        rw [if_pos hcond]
        have hstep : bestScan s e (u :: rest) (b, v) =
            bestScan s e rest (some u.speaker, turnOverlap s e u) := by
          simp only [bestScan]
          rw [if_pos hu]
        rw [hstep, ih (some u.speaker) (turnOverlap s e u)]
        by_cases hstrict : turnOverlap s e u < scanMax s e (turnOverlap s e u) rest
        · rw [if_pos hstrict]
          have hne : ¬ (turnOverlap s e u = scanMax s e (turnOverlap s e u) rest) :=
            ne_of_lt hstrict
          rw [List.find?_cons, decide_eq_false hne]
        · rw [if_neg hstrict]
          have heq : turnOverlap s e u = scanMax s e (turnOverlap s e u) rest :=
            le_antisymm hMge (le_of_not_lt hstrict)
          rw [List.find?_cons, decide_eq_true heq]
          simpa using heq
      · have hle : turnOverlap s e u ≤ v := le_of_not_lt hu
        have hmax : max v (turnOverlap s e u) = v := max_eq_left hle
        have hM : scanMax s e v (u :: rest) = scanMax s e v rest := by
          rw [scanMax, hmax]
        rw [hM]
        have hstep : bestScan s e (u :: rest) (b, v) = bestScan s e rest (b, v) := by
          simp only [bestScan]
          rw [if_neg hu]
        rw [hstep, ih b v]
        by_cases hcond : v < scanMax s e v rest
        · rw [if_pos hcond, if_pos hcond]
          have hne : ¬ (turnOverlap s e u = scanMax s e v rest) :=
            ne_of_lt (lt_of_le_of_lt hle hcond)
          rw [List.find?_cons, decide_eq_false hne]
        · rw [if_neg hcond, if_neg hcond]

/-! ### Characterization of `pyMinBy` (Python `min(..., key=f)`) -/

/-- Running minimum of `f` over a turn list with seed `v`. -/
def scanMin (f : Turn → ℚ) (v : ℚ) : List Turn → ℚ
  | [] => v
  | t :: rest => scanMin f (min v (f t)) rest

theorem scanMin_le (f : Turn → ℚ) : ∀ (ts : List Turn) (v : ℚ), scanMin f v ts ≤ v
  | [], v => le_refl v
  | t :: rest, v =>
      le_trans (scanMin_le f rest (min v (f t))) (min_le_left v (f t))

theorem scanMin_attain (f : Turn → ℚ) :
    ∀ (ts : List Turn) (v : ℚ),
      scanMin f v ts = v ∨ ∃ t ∈ ts, f t = scanMin f v ts := by
  intro ts
  induction ts with
  | nil => intro v; exact Or.inl rfl
  | cons u rest ih =>
      intro v
      rcases ih (min v (f u)) with h | ⟨t, ht, hf⟩
      · rcases min_choice v (f u) with hm | hm
        · exact Or.inl (by rw [scanMin, h, hm])
        · refine Or.inr ⟨u, List.mem_cons_self u rest, ?_⟩
          rw [scanMin, h, hm]
      · exact Or.inr ⟨t, List.mem_cons_of_mem u ht, hf⟩

theorem pyMinBy_spec (f : Turn → ℚ) :
    ∀ (ts : List Turn) (b : Turn),
      pyMinBy f b ts =
        if scanMin f (f b) ts < f b then
          ((ts.find? fun t => decide (f t = scanMin f (f b) ts)).getD b)
        else b := by
  intro ts
  induction ts with
  | nil =>
      intro b
      simp [pyMinBy, scanMin]
  | cons u rest ih =>
      intro b
      by_cases hu : f u < f b
      · have hmin : min (f b) (f u) = f u := min_eq_right (le_of_lt hu)
        have hM : scanMin f (f b) (u :: rest) = scanMin f (f u) rest := by
          rw [scanMin, hmin]
        rw [hM]
        have hMle : scanMin f (f u) rest ≤ f u := scanMin_le f rest _
        have hcond : scanMin f (f u) rest < f b := lt_of_le_of_lt hMle hu
        have hstep : pyMinBy f b (u :: rest) = pyMinBy f u rest := by
          simp only [pyMinBy]
          rw [if_pos hu]
        rw [hstep, ih u, if_pos hcond]
        by_cases hstrict : scanMin f (f u) rest < f u
        · rw [if_pos hstrict]
          have hne : ¬ (f u = scanMin f (f u) rest) :=
            fun h => absurd hstrict (by rw [← h]; exact lt_irrefl (f u))
          rw [List.find?_cons, decide_eq_false hne]
          have hattain : ∃ t ∈ rest, f t = scanMin f (f u) rest := by
            rcases scanMin_attain f rest (f u) with h | h
            · exact absurd hstrict (by rw [h]; exact lt_irrefl (f u))
            · exact h
          have hsome : (rest.find? fun t => decide (f t = scanMin f (f u) rest)).isSome := by
            rw [List.find?_isSome]
            rcases hattain with ⟨t, ht, hft⟩
            exact ⟨t, ht, decide_eq_true hft⟩
          rcases Option.isSome_iff_exists.mp hsome with ⟨w, hw⟩
          rw [hw]
          rfl
        · rw [if_neg hstrict]
          have heq : f u = scanMin f (f u) rest :=
            le_antisymm (le_of_not_lt hstrict) hMle
          rw [List.find?_cons, decide_eq_true heq]
          rfl
      · have hle : f b ≤ f u := le_of_not_lt hu
        have hmin : min (f b) (f u) = f b := min_eq_left hle
        have hM : scanMin f (f b) (u :: rest) = scanMin f (f b) rest := by
          rw [scanMin, hmin]
        rw [hM]
        have hstep : pyMinBy f b (u :: rest) = pyMinBy f b rest := by
          simp only [pyMinBy]
          rw [if_neg hu]
        rw [hstep, ih b]
        by_cases hcond : scanMin f (f b) rest < f b
        · rw [if_pos hcond, if_pos hcond]
          have hne : ¬ (f u = scanMin f (f b) rest) :=
            ne_of_gt (lt_of_lt_of_le hcond hle)
          rw [List.find?_cons, decide_eq_false hne]
        · rw [if_neg hcond, if_neg hcond]

theorem findCongr {α : Type} {p q : α → Bool} :
    ∀ {l : List α}, (∀ x ∈ l, p x = q x) → l.find? p = l.find? q := by
  intro l
  induction l with
  | nil => intro _; rfl
  | cons x rest ih =>
      intro h
      rw [List.find?_cons, List.find?_cons, h x (List.mem_cons_self x rest)]
      cases hq : q x with
      | true => rfl
      | false => exact ih (fun y hy => h y (List.mem_cons_of_mem x hy))

theorem scanMin_mem_le (f : Turn → ℚ) :
    ∀ {ts : List Turn} (v : ℚ) {t : Turn}, t ∈ ts → scanMin f v ts ≤ f t := by
  intro ts
  induction ts with
  | nil => intro v t h; cases h
  | cons u rest ih =>
      intro v t h
      rcases List.mem_cons.mp h with h | h
      · subst h
        exact le_trans (scanMin_le f rest (min v (f t))) (min_le_right v (f t))
      · exact ih _ h

theorem le_scanMin (f : Turn → ℚ) :
    ∀ {ts : List Turn} {v c : ℚ}, c ≤ v → (∀ t ∈ ts, c ≤ f t) → c ≤ scanMin f v ts := by
  intro ts
  induction ts with
  | nil => intro v c hv _; exact hv
  | cons u rest ih =>
      intro v c hv hall
      exact ih (le_min hv (hall u (List.mem_cons_self u rest)))
        (fun t ht => hall t (List.mem_cons_of_mem u ht))

/-! ### Spec-side (claim-language) definitions for the speaker merge -/

/-- Modelled from the spec: "fall back to the turn minimizing
`min(|midpoint - turn.start|, |midpoint - turn.end|)`", "ties resolved by
first-encountered" — the first turn whose key is a minimum over all turns. -/
def specNearestSpeaker (mid : ℚ) (turns : List Turn) : Option String :=
  (turns.find? fun u =>
      decide (∀ w ∈ turns, nearestKey mid u ≤ nearestKey mid w)).map Turn.speaker

/-- Modelled from the spec: "Choose the turn with strictly greatest positive
overlap; ties are resolved by whichever turn is encountered first in
iteration order" — the first turn whose overlap is positive and maximal. -/
def specBestOverlapTurn (s e : ℚ) (turns : List Turn) : Option Turn :=
  turns.find? fun u =>
    decide (0 < turnOverlap s e u ∧ ∀ w ∈ turns, turnOverlap s e w ≤ turnOverlap s e u)

/-- The per-segment speaker choice exactly as claim C1 states it: the raw
speaker of the best positive-overlap turn, with the midpoint-nearest
fallback only when no turn has positive overlap. -/
def claimChooseSpeakerStated (s e : ℚ) (turns : List Turn) : String :=
  match specBestOverlapTurn s e turns with
  | some u => u.speaker
  | none => (specNearestSpeaker ((s + e) / 2) turns).getD ""

/-- The per-segment speaker choice as amended: the best positive-overlap
raw speaker of that turn is used only when it is a non-empty string; when no turn
has positive overlap, or the raw speaker of the selected turn is the empty
string, the midpoint-nearest fallback applies. -/
def specChooseSpeaker (s e : ℚ) (turns : List Turn) : String :=
  match specBestOverlapTurn s e turns with
  | some u =>
      if u.speaker = "" then (specNearestSpeaker ((s + e) / 2) turns).getD ""
      else u.speaker
  | none => (specNearestSpeaker ((s + e) / 2) turns).getD ""

/-- Spec-side per-segment assignment: drop empty trimmed text, clamp
`end` up to `start`, choose a raw speaker. -/
def specAssignSpeaker (choose : ℚ → ℚ → List Turn → String) (turns : List Turn)
    (seg : Seg) : Option MergedSeg :=
  if pyStrip seg.text = "" then none
  else
    some
      { start := seg.start, stop := max seg.start seg.stop, text := pyStrip seg.text,
        speaker := choose seg.start (max seg.start seg.stop) turns }

/-- Spec-side label normalization order: raw labels in order of first
appearance across the assigned segment sequence. -/
def dedupFirst (xs : List String) : List String :=
  xs.foldl (fun acc x => if x ∈ acc then acc else acc ++ [x]) []

/-- Spec-side normalized label: `"Speaker N"` for the `N`-th raw label in
first-appearance order, `"Speaker ?"` otherwise. -/
def specNormalizeLabel (order : List String) (raw : String) : String :=
  match order.indexOf? raw with
  | some i => "Speaker " ++ toString (i + 1)
  | none => "Speaker ?"

/-- Spec-side merge for a non-empty turn list, parameterized by the
per-segment choice function. -/
def specMergeWith (choose : ℚ → ℚ → List Turn → String) (segs : List Seg)
    (turns : List Turn) : List MergedSeg :=
  let assigned := segs.filterMap (specAssignSpeaker choose turns)
  let order := dedupFirst (assigned.map MergedSeg.speaker)
  assigned.map fun m => { m with speaker := specNormalizeLabel order m.speaker }

theorem specBestOverlapTurn_eq (s e : ℚ) (turns : List Turn) :
    specBestOverlapTurn s e turns =
      if 0 < scanMax s e 0 turns then
        turns.find? fun u => decide (turnOverlap s e u = scanMax s e 0 turns)
      else none := by
  by_cases hpos : 0 < scanMax s e 0 turns
  · rw [if_pos hpos]
    apply findCongr
    intro u hu
    rw [decide_eq_decide]
    constructor
    · rintro ⟨-, hall⟩
      exact le_antisymm (mem_le_scanMax s e 0 hu)
        (scanMax_le s e (turnOverlap_nonneg s e u) hall)
    · intro h
      refine ⟨h ▸ hpos, fun w hw => ?_⟩
      rw [h]
      exact mem_le_scanMax s e 0 hw
  · rw [if_neg hpos]
    unfold specBestOverlapTurn
    rw [List.find?_eq_none]
    intro u hu
    simp only [decide_eq_true_eq, not_and]
    intro hpo
    exact absurd (lt_of_lt_of_le hpo (mem_le_scanMax s e 0 hu)) hpos

theorem specNearestSpeaker_eq (mid : ℚ) (t : Turn) (rest : List Turn) :
    specNearestSpeaker mid (t :: rest) = some (nearestSpeaker mid t rest) := by
  unfold nearestSpeaker
  rw [pyMinBy_spec]
  by_cases hlt : scanMin (nearestKey mid) (nearestKey mid t) rest < nearestKey mid t
  · rw [if_pos hlt]
    have hattain : ∃ w ∈ rest,
        nearestKey mid w = scanMin (nearestKey mid) (nearestKey mid t) rest := by
      rcases scanMin_attain (nearestKey mid) rest (nearestKey mid t) with h | h
      · exact absurd hlt (by rw [h]; exact lt_irrefl _)
      · exact h
    rcases hattain with ⟨w0, hw0, hfw0⟩
    have hpredt : ¬ (∀ w ∈ t :: rest, nearestKey mid t ≤ nearestKey mid w) := by
      intro hall
      have h1 := hall w0 (List.mem_cons_of_mem t hw0)
      rw [hfw0] at h1
      exact absurd (lt_of_le_of_lt h1 hlt) (lt_irrefl _)
    unfold specNearestSpeaker
    rw [List.find?_cons, decide_eq_false hpredt]
    have hcongr : (rest.find? fun u =>
          decide (∀ w ∈ t :: rest, nearestKey mid u ≤ nearestKey mid w))
        = rest.find? fun u =>
            decide (nearestKey mid u = scanMin (nearestKey mid) (nearestKey mid t) rest) := by
      apply findCongr
      intro u hu
      rw [decide_eq_decide]
      constructor
      · intro hall
        refine le_antisymm ?_ (scanMin_mem_le (nearestKey mid) (nearestKey mid t) hu)
        exact le_scanMin (nearestKey mid) (hall t (List.mem_cons_self t rest))
          (fun w hw => hall w (List.mem_cons_of_mem t hw))
      · intro hEq w hw
        rcases List.mem_cons.mp hw with h | h
        · rw [h, hEq]; exact le_of_lt hlt
        · rw [hEq]; exact scanMin_mem_le (nearestKey mid) (nearestKey mid t) h
    rw [hcongr]
    have hsome : (rest.find? fun u =>
        decide (nearestKey mid u =
          scanMin (nearestKey mid) (nearestKey mid t) rest)).isSome := by
      rw [List.find?_isSome]
      exact ⟨w0, hw0, decide_eq_true hfw0⟩
    rcases Option.isSome_iff_exists.mp hsome with ⟨w, hw⟩
    rw [hw]
    rfl
  · rw [if_neg hlt]
    have hpredt : ∀ w ∈ t :: rest, nearestKey mid t ≤ nearestKey mid w := by
      intro w hw
      rcases List.mem_cons.mp hw with h | h
      · rw [h]
      · calc nearestKey mid t
            = scanMin (nearestKey mid) (nearestKey mid t) rest :=
              le_antisymm (le_of_not_lt hlt) (scanMin_le (nearestKey mid) rest _)
          _ ≤ nearestKey mid w := scanMin_mem_le (nearestKey mid) (nearestKey mid t) h
    unfold specNearestSpeaker
    rw [List.find?_cons, decide_eq_true hpredt]
    rfl

theorem chooseSpeaker_eq_spec (s e : ℚ) (t : Turn) (rest : List Turn) :
    chooseSpeaker s e t rest = specChooseSpeaker s e (t :: rest) := by
  unfold chooseSpeaker specChooseSpeaker
  rw [bestScan_spec, specBestOverlapTurn_eq, specNearestSpeaker_eq]
  by_cases hpos : 0 < scanMax s e 0 (t :: rest)
  · rw [if_pos hpos, if_pos hpos]
    have hattain : ∃ u ∈ t :: rest,
        turnOverlap s e u = scanMax s e 0 (t :: rest) := by
      rcases scanMax_attain s e (t :: rest) 0 with h | h
      · exact absurd hpos (by rw [h]; exact lt_irrefl 0)
      · exact h
    have hsome : ((t :: rest).find? fun u =>
        decide (turnOverlap s e u = scanMax s e 0 (t :: rest))).isSome := by
      rw [List.find?_isSome]
      rcases hattain with ⟨u, hu, hou⟩
      exact ⟨u, hu, decide_eq_true hou⟩
    rcases Option.isSome_iff_exists.mp hsome with ⟨u, hu⟩
    rw [hu]
    rfl
  · rw [if_neg hpos, if_neg hpos]
    rfl

theorem clampStop (s v : ℚ) : (if v < s then s else v) = max s v := by
  rcases le_or_lt s v with h | h
  · rw [if_neg (not_lt.mpr h), max_eq_right h]
  · rw [if_pos h, max_eq_left (le_of_lt h)]

theorem assignRaw_eq_spec (t : Turn) (rest : List Turn) :
    ∀ segs : List Seg,
      assignRaw t rest segs
        = segs.filterMap (specAssignSpeaker specChooseSpeaker (t :: rest)) := by
  intro segs
  induction segs with
  | nil => rfl
  | cons seg segs ih =>
      rw [List.filterMap_cons]
      by_cases h : pyStrip seg.text = ""
      · simp only [assignRaw, specAssignSpeaker, h, if_pos rfl, ih]
        rfl
      · simp only [assignRaw, specAssignSpeaker, if_neg h, ih, clampStop,
          chooseSpeaker_eq_spec]

theorem labelOrder_eq (ms : List MergedSeg) :
    labelOrder ms = dedupFirst (ms.map MergedSeg.speaker) := by
  unfold labelOrder dedupFirst
  rw [List.foldl_map]

theorem merge_eq_specMerge (segs : List Seg) (t : Turn) (rest : List Turn) :
    merge_segments_with_speakers segs (t :: rest)
      = specMergeWith specChooseSpeaker segs (t :: rest) := by
  simp only [merge_segments_with_speakers, specMergeWith]
  rw [assignRaw_eq_spec, labelOrder_eq]
  rfl

/-! ### First-appearance label order -/

theorem dedupFirst_loop_mem (xs : List String) :
    ∀ (acc : List String) (y : String),
      y ∈ xs.foldl (fun acc x => if x ∈ acc then acc else acc ++ [x]) acc ↔
        y ∈ acc ∨ y ∈ xs := by
  induction xs with
  | nil => intro acc y; simp
  | cons x rest ih =>
      intro acc y
      rw [List.foldl_cons]
      by_cases hx : x ∈ acc
      · rw [if_pos hx, ih]
        constructor
        · rintro (h | h)
          · exact Or.inl h
          · exact Or.inr (List.mem_cons_of_mem x h)
        · rintro (h | h)
          · exact Or.inl h
          · rcases List.mem_cons.mp h with h | h
            · exact Or.inl (h ▸ hx)
            · exact Or.inr h
      · rw [if_neg hx, ih]
        constructor
        · rintro (h | h)
          · rcases List.mem_append.mp h with h | h
            · exact Or.inl h
            · exact Or.inr (List.mem_cons.mpr (Or.inl (List.mem_singleton.mp h)))
          · exact Or.inr (List.mem_cons_of_mem x h)
        · rintro (h | h)
          · exact Or.inl (List.mem_append.mpr (Or.inl h))
          · rcases List.mem_cons.mp h with h | h
            · exact Or.inl (List.mem_append.mpr (Or.inr (h ▸ List.mem_singleton_self x)))
            · exact Or.inr h

theorem dedupFirst_loop_nodup (xs : List String) :
    ∀ acc : List String,
      acc.Nodup →
        (xs.foldl (fun acc x => if x ∈ acc then acc else acc ++ [x]) acc).Nodup := by
  induction xs with
  | nil => intro acc h; exact h
  | cons x rest ih =>
      intro acc hacc
      rw [List.foldl_cons]
      by_cases hx : x ∈ acc
      · rw [if_pos hx]; exact ih acc hacc
      · rw [if_neg hx]
        refine ih (acc ++ [x]) ?_
        simp [List.nodup_append, hacc, hx]

theorem dedupFirst_mem (xs : List String) (y : String) :
    y ∈ dedupFirst xs ↔ y ∈ xs := by
  unfold dedupFirst
  rw [dedupFirst_loop_mem]
  simp

theorem dedupFirst_nodup (xs : List String) : (dedupFirst xs).Nodup :=
  dedupFirst_loop_nodup xs [] List.nodup_nil

theorem indexOf?_mem_isSome (l : List String) (a : String) (h : a ∈ l) :
    ∃ i : ℕ, l.indexOf? a = some i ∧ i < l.length := by
  cases hidx : l.indexOf? a with
  | none =>
      rw [List.indexOf?_eq_none_iff] at hidx
      exact absurd (beq_self_eq_true a) (by simpa using hidx a h)
  | some i =>
      refine ⟨i, rfl, ?_⟩
      unfold List.indexOf? at hidx
      have := List.findIdx?_eq_some_iff_findIdx_eq.mp hidx
      omega

/-- The raw (pre-normalization) speaker labels assigned to the kept
segments, in segment order; empty when the turn list is empty (no raw
label is ever assigned in that branch). -/
def rawLabels (segs : List Seg) : List Turn → List String
  | [] => []
  | t :: rest => (assignRaw t rest segs).map MergedSeg.speaker

theorem assignRaw_texts (t : Turn) (rest : List Turn) :
    ∀ segs : List Seg,
      (assignRaw t rest segs).map MergedSeg.text
        = (segs.filter fun s => pyStrip s.text ≠ "").map fun s => pyStrip s.text := by
  intro segs
  induction segs with
  | nil => rfl
  | cons seg segs ih =>
      rw [List.filter_cons]
      by_cases h : pyStrip seg.text = ""
      · simp [assignRaw, h, ih]
      · simp [assignRaw, h, ih]

theorem assignRaw_text_ne (t : Turn) (rest : List Turn) :
    ∀ (segs : List Seg) (m : MergedSeg), m ∈ assignRaw t rest segs → m.text ≠ "" := by
  intro segs
  induction segs with
  | nil => intro m h; cases h
  | cons seg segs ih =>
      intro m h
      by_cases htrim : pyStrip seg.text = ""
      · rw [assignRaw, if_pos htrim] at h
        exact ih m h
      · rw [assignRaw, if_neg htrim] at h
        rcases List.mem_cons.mp h with h | h
        · rw [h]
          exact htrim
        · exact ih m h

theorem merge_texts (segs : List Seg) (turns : List Turn) :
    (merge_segments_with_speakers segs turns).map MergedSeg.text
      = (segs.filter fun s => pyStrip s.text ≠ "").map fun s => pyStrip s.text := by
  cases turns with
  | nil =>
      simp only [merge_segments_with_speakers, List.map_map]
      rfl
  | cons t rest =>
      simp only [merge_segments_with_speakers, List.map_map]
      rw [← assignRaw_texts t rest segs]
      rfl

/-- The worked merge example of the spec: turns `[(0,2.5,A),(2.5,5.0,B)]`. -/
def mergeExampleTurns : List Turn :=
  [{ start := 0, stop := 5/2, speaker := "A" },
   { start := 5/2, stop := 5, speaker := "B" }]

/-- The worked merge example of the spec: segments
`[(0,2,"hi"),(2.1,4,"upd"),(4.2,5,"ok")]`. -/
def mergeExampleSegs : List Seg :=
  [{ start := 0, stop := 2, text := "hi" },
   { start := 21/10, stop := 4, text := "upd" },
   { start := 21/5, stop := 5, text := "ok" }]

/-- Turns whose greatest-overlap label is the empty string: the falsy test
`if not best_speaker` of the code then discards it. -/
def emptyLabelTurns : List Turn :=
  [{ start := 0, stop := 5, speaker := "" },
   { start := 4, stop := 5, speaker := "X" }]

/-- Segments exposing the empty-label fallthrough observably. -/
def emptyLabelSegs : List Seg :=
  [{ start := 0, stop := 5, text := "a" },
   { start := 0, stop := 1, text := "b" }]

section ConcreteEvaluation

attribute [local semireducible] Rat.add Rat.mul Rat.inv Rat.sub Rat.ofScientific

/-- C1 counterexample: with a turn whose raw speaker label is the empty
string, the claim as stated (assign the raw speaker of the turn with
strictly greatest positive overlap, nearest fallback only when no overlap
is positive) predicts both segments receive that same empty raw label and
hence the same normalized label, but `merge_segments_with_speakers`
treats the empty best label as missing (Python truthiness of
`best_speaker`) and gives the two segments different speakers. -/
theorem merge_speaker_choice_counterexample :
    specMergeWith claimChooseSpeakerStated emptyLabelSegs emptyLabelTurns
        ≠ merge_segments_with_speakers emptyLabelSegs emptyLabelTurns
      ∧ (specMergeWith claimChooseSpeakerStated emptyLabelSegs
            emptyLabelTurns).map MergedSeg.speaker
        = ["Speaker 1", "Speaker 1"]
      ∧ (merge_segments_with_speakers emptyLabelSegs emptyLabelTurns).map
            MergedSeg.speaker
        = ["Speaker 1", "Speaker 2"] := by
  refine ⟨?_, by decide, by decide⟩
  decide

/-- C1 (amended): for every non-empty turn list,
`merge_segments_with_speakers` keeps exactly the segments with non-empty
trimmed text, clamps `end` up to `start`, and assigns each one the raw
speaker of the first turn with strictly greatest positive overlap
provided that raw label is a non-empty string; when no turn has positive
overlap, or the selected raw label is the empty string, it falls back to
the first turn minimizing `min(|midpoint - start|, |midpoint - end|)`;
raw labels are then normalized by first appearance. On the worked example
the speakers are `["Speaker 1", "Speaker 2", "Speaker 2"]`. -/
theorem merge_speaker_choice_amended :
    (∀ (segs : List Seg) (t : Turn) (rest : List Turn),
        merge_segments_with_speakers segs (t :: rest)
          = specMergeWith specChooseSpeaker segs (t :: rest))
      ∧ (merge_segments_with_speakers mergeExampleSegs mergeExampleTurns).map
            MergedSeg.speaker
        = ["Speaker 1", "Speaker 2", "Speaker 2"] :=
  ⟨merge_eq_specMerge, by decide⟩

end ConcreteEvaluation

/-- The empty-turns example segments of the spec `[(0,1,"a"),(1,2,"b")]`. -/
def emptyTurnsSegs : List Seg :=
  [{ start := 0, stop := 1, text := "a" }, { start := 1, stop := 2, text := "b" }]

/-- C4: `merge_segments_with_speakers` emits a merged segment only for
input segments with non-empty trimmed text (in their original order, with
the trimmed text), every emitted segment has non-empty text, and with an
empty turn list it returns exactly the non-empty-text segments, each with
speaker `"Speaker ?"`; in particular segments `[(0,1,"a"),(1,2,"b")]` with
no turns yield speakers `["Speaker ?", "Speaker ?"]`. -/
theorem merge_drops_empty_segments (segs : List Seg) (turns : List Turn) :
    ((merge_segments_with_speakers segs turns).map MergedSeg.text
        = (segs.filter fun s => pyStrip s.text ≠ "").map fun s => pyStrip s.text)
      ∧ (∀ m ∈ merge_segments_with_speakers segs turns, m.text ≠ "")
      ∧ merge_segments_with_speakers segs []
          = ((segs.filter fun s => pyStrip s.text ≠ "").map fun s =>
              { start := s.start, stop := s.stop, text := pyStrip s.text,
                speaker := "Speaker ?" })
      ∧ (merge_segments_with_speakers emptyTurnsSegs []).map MergedSeg.speaker
          = ["Speaker ?", "Speaker ?"] := by
  refine ⟨merge_texts segs turns, ?_, rfl, by decide⟩
  intro m hm
  cases turns with
  | nil =>
      simp only [merge_segments_with_speakers] at hm
      rcases List.mem_map.mp hm with ⟨s, hs, rfl⟩
      have hkept := List.of_mem_filter hs
      simpa using hkept
  | cons t rest =>
      simp only [merge_segments_with_speakers] at hm
      rcases List.mem_map.mp hm with ⟨m0, hm0, rfl⟩
      exact assignRaw_text_ne t rest segs m0 hm0

section

attribute [local semireducible] Rat.add Rat.mul Rat.inv Rat.sub Rat.ofScientific

/-- C4 witness: the first merged segment of the empty-turns example is
emitted, and its text is non-empty. -/
theorem merge_drops_empty_segments_witness :
    ({ start := 0, stop := 1, text := "a", speaker := "Speaker ?" } : MergedSeg)
        ∈ merge_segments_with_speakers emptyTurnsSegs []
      ∧ ({ start := 0, stop := 1, text := "a", speaker := "Speaker ?" } :
          MergedSeg).text ≠ "" :=
  ⟨by decide,
    (merge_drops_empty_segments emptyTurnsSegs []).2.1 _ (by decide)⟩

end

theorem merge_speakers_map_eq (segs : List Seg) (t : Turn) (rest : List Turn) :
    (merge_segments_with_speakers segs (t :: rest)).map MergedSeg.speaker
      = (rawLabels segs (t :: rest)).map
          (specNormalizeLabel (dedupFirst (rawLabels segs (t :: rest)))) := by
  simp only [merge_segments_with_speakers, rawLabels, List.map_map]
  rw [labelOrder_eq]
  rfl

/-- C3: every output speaker label of `merge_segments_with_speakers` is
drawn from `{"Speaker 1", …, "Speaker N", "Speaker ?"}` with `N` the
number of distinct raw labels assigned (`dedupFirst` of the raw label
sequence is duplicate-free and carries exactly the assigned raw labels,
in first-appearance order across the output segments in their original
order); the label of each output segment is `"Speaker k"` for the position `k`
of its raw label in that first-appearance order; the output keeps the
original order of the kept segments; and with an empty turn list every label is
`"Speaker ?"`. -/
theorem merge_label_normalization (segs : List Seg) (turns : List Turn) :
    ((merge_segments_with_speakers segs turns).map MergedSeg.text
        = (segs.filter fun s => pyStrip s.text ≠ "").map fun s => pyStrip s.text)
      ∧ (dedupFirst (rawLabels segs turns)).Nodup
      ∧ (∀ x, x ∈ dedupFirst (rawLabels segs turns) ↔ x ∈ rawLabels segs turns)
      ∧ (turns ≠ [] →
          (merge_segments_with_speakers segs turns).map MergedSeg.speaker
            = (rawLabels segs turns).map
                (specNormalizeLabel (dedupFirst (rawLabels segs turns))))
      ∧ (turns = [] →
          ∀ m ∈ merge_segments_with_speakers segs turns, m.speaker = "Speaker ?")
      ∧ (∀ m ∈ merge_segments_with_speakers segs turns,
          m.speaker = "Speaker ?" ∨
            ∃ k : ℕ, k < (dedupFirst (rawLabels segs turns)).length ∧
              m.speaker = "Speaker " ++ toString (k + 1)) := by
  refine ⟨merge_texts segs turns, dedupFirst_nodup _, fun x => dedupFirst_mem _ x,
    ?_, ?_, ?_⟩
  · intro hne
    cases turns with
    | nil => exact absurd rfl hne
    | cons t rest => exact merge_speakers_map_eq segs t rest
  · intro hnil
    subst hnil
    intro m hm
    simp only [merge_segments_with_speakers] at hm
    rcases List.mem_map.mp hm with ⟨s, _, rfl⟩
    rfl
  · intro m hm
    cases turns with
    | nil =>
        left
        simp only [merge_segments_with_speakers] at hm
        rcases List.mem_map.mp hm with ⟨s, _, rfl⟩
        rfl
    | cons t rest =>
        right
        simp only [merge_segments_with_speakers] at hm
        rcases List.mem_map.mp hm with ⟨m0, hm0, rfl⟩
        have hmem : m0.speaker ∈ rawLabels segs (t :: rest) := by
          simpa [rawLabels] using List.mem_map_of_mem MergedSeg.speaker hm0
        have hmem2 : m0.speaker ∈ dedupFirst (rawLabels segs (t :: rest)) :=
          (dedupFirst_mem _ _).mpr hmem
        rcases indexOf?_mem_isSome _ _ hmem2 with ⟨i, hidx, hlt⟩
        refine ⟨i, hlt, ?_⟩
        show speakerLabel (labelOrder (assignRaw t rest segs)) m0.speaker = _
        rw [labelOrder_eq]
        unfold speakerLabel
        rw [show dedupFirst ((assignRaw t rest segs).map MergedSeg.speaker)
              = dedupFirst (rawLabels segs (t :: rest)) from rfl, hidx]

section

attribute [local semireducible] Rat.add Rat.mul Rat.inv Rat.sub Rat.ofScientific

/-- C3 witness: the normalization map equality instantiated on the worked
example of the spec, with the non-empty-turns hypothesis discharged. -/
theorem merge_label_normalization_witness :
    mergeExampleTurns ≠ [] ∧
      (merge_segments_with_speakers mergeExampleSegs mergeExampleTurns).map
          MergedSeg.speaker
        = (rawLabels mergeExampleSegs mergeExampleTurns).map
            (specNormalizeLabel (dedupFirst (rawLabels mergeExampleSegs mergeExampleTurns))) :=
  ⟨by decide,
    (merge_label_normalization mergeExampleSegs mergeExampleTurns).2.2.2.1 (by decide)⟩

end

/-! ### `input_mix.py`: resampling and microphone mixing -/

/-- Python 3 `round` (as used on `duration * target_rate`): round half to
even. `f % 2 = 0` is the evenness test for the tie case. -/
def pyRound (q : ℚ) : ℤ :=
  let f := q.floor
  if q - f < 1/2 then f
  else if 1/2 < q - f then f + 1
  else if f % 2 = 0 then f else f + 1

/-- Numpy `np.interp` at position `p` over source positions `0, 1, …, n-1` with
sample values `signal`: linear interpolation between the two neighbouring
samples, clamping to the last sample at or beyond position `n-1`. -/
def interpAt (signal : List ℚ) (p : ℚ) : ℚ :=
  let j : ℕ := p.floor.toNat
  if j + 1 < signal.length then
    let a := signal.getD j 0
    let b := signal.getD (j + 1) 0
    a + (b - a) * (p - (j : ℚ))
  else signal.getD (signal.length - 1) 0

/-- Numpy `np.linspace(0, n - 1, num=k)` position `i` (for `k = 1` numpy yields
the single start point `0.0`). -/
def linspacePos (n k i : ℕ) : ℚ :=
  if k ≤ 1 then 0 else ((n : ℚ) - 1) * i / ((k : ℚ) - 1)

/-- Source `input_mix.py` `_resample` (the `astype(np.float32)` casts are
identities at this abstraction level, where samples are exact rationals). -/
def _resample (signal : List ℚ) (sourceRate targetRate : ℕ) : List ℚ :=
  if sourceRate = targetRate then signal
  else if signal.length = 0 then signal
  else
    let duration : ℚ := (signal.length : ℚ) / (sourceRate : ℚ)
    let targetLength : ℕ := max 1 (pyRound (duration * (targetRate : ℚ))).toNat
    (List.range targetLength).map fun i =>
      interpAt signal (linspacePos signal.length targetLength i)

/-- Numpy `np.pad(xs, (0, n - len(xs)))`: zero-pad on the right to length `n`. -/
def padTo (xs : List ℚ) (n : ℕ) : List ℚ :=
  xs ++ List.replicate (n - xs.length) 0

/-- The line `mixed = (system_mono + mic_mono) * 0.5` after zero-padding both
tracks to the longer length. -/
def mixSamples (sys mic : List ℚ) : List ℚ :=
  let n := max sys.length mic.length
  ((padTo sys n).zip (padTo mic n)).map fun p => (p.1 + p.2) * (1/2)

/-- The peak `float(np.max(np.abs(mixed))) if mixed.size > 0 else 0.0`: the fold
seed 0 is absorbed for non-empty signals since every `|x|` is
non-negative. -/
def peakAbs (xs : List ℚ) : ℚ :=
  xs.foldl (fun a x => max a |x|) 0

/-- The step `if peak > 1.0: mixed = mixed / peak`. -/
def normalizeMix (xs : List ℚ) : List ℚ :=
  if 1 < peakAbs xs then xs.map (fun x => x / peakAbs xs) else xs

/-- The mixing core of `maybe_mix_microphone_track` applied to the two
mono tracks (the microphone track already resampled to the system rate):
pad, average, peak-normalize. -/
def mixTracks (sys mic : List ℚ) : List ℚ :=
  normalizeMix (mixSamples sys mic)

theorem peakFold_le (v : ℚ) : ∀ (xs : List ℚ), v ≤ xs.foldl (fun a x => max a |x|) v := by
  intro xs
  induction xs generalizing v with
  | nil => exact le_refl v
  | cons x rest ih =>
      exact le_trans (le_max_left v |x|) (ih (max v |x|))

theorem mem_le_peakFold :
    ∀ (xs : List ℚ) (v x : ℚ), x ∈ xs → |x| ≤ xs.foldl (fun a y => max a |y|) v := by
  intro xs
  induction xs with
  | nil => intro v x h; cases h
  | cons y rest ih =>
      intro v x h
      rcases List.mem_cons.mp h with h | h
      · subst h
        exact le_trans (le_max_right v |x|) (peakFold_le (max v |x|) rest)
      · exact ih _ x h

theorem mem_le_peakAbs (xs : List ℚ) (x : ℚ) (h : x ∈ xs) : |x| ≤ peakAbs xs :=
  mem_le_peakFold xs 0 x h

theorem peakAbs_nonneg (xs : List ℚ) : 0 ≤ peakAbs xs :=
  peakFold_le 0 xs

/-- C6: every sample written by the mixing path lies in `[-1, 1]`; the
mix is the half-sum of the zero-padded tracks and is divided by its peak
only when that peak exceeds 1, so an all-silent mix (peak 0) skips
normalization entirely and no division by zero occurs. -/
theorem mix_output_bounded :
    (∀ (sys mic : List ℚ) (x : ℚ), x ∈ mixTracks sys mic → -1 ≤ x ∧ x ≤ 1)
      ∧ (∀ sys mic : List ℚ, peakAbs (mixSamples sys mic) = 0 →
          mixTracks sys mic = mixSamples sys mic) := by
  constructor
  · intro sys mic x hx
    unfold mixTracks normalizeMix at hx
    by_cases hpeak : 1 < peakAbs (mixSamples sys mic)
    · rw [if_pos hpeak] at hx
      rcases List.mem_map.mp hx with ⟨y, hy, rfl⟩
      have hbound : |y| ≤ peakAbs (mixSamples sys mic) := mem_le_peakAbs _ y hy
      have hpos : 0 < peakAbs (mixSamples sys mic) := lt_trans one_pos hpeak
      rw [← abs_le]
      rw [abs_div, abs_of_pos hpos]
      exact (div_le_one hpos).mpr hbound
    · rw [if_neg hpeak] at hx
      have hbound : |x| ≤ peakAbs (mixSamples sys mic) := mem_le_peakAbs _ x hx
      rw [← abs_le]
      exact le_trans hbound (le_of_not_lt hpeak)
  · intro sys mic hzero
    unfold mixTracks normalizeMix
    rw [hzero]
    norm_num

section

attribute [local semireducible] Rat.add Rat.mul Rat.inv Rat.sub Rat.ofScientific

/-- C6 witness: a mix whose raw half-sum peaks at 2 is normalized and its
(sole) sample 1 obeys the bounds. -/
theorem mix_output_bounded_witness :
    (1 : ℚ) ∈ mixTracks [3] [1] ∧ (-1 ≤ (1 : ℚ) ∧ (1 : ℚ) ≤ 1) :=
  ⟨by decide, mix_output_bounded.1 [3] [1] 1 (by decide)⟩

/-- C5 counterexample: a one-sample signal resampled from rate 3 to
rate 1 yields one output sample, although
`round(secondary_duration_seconds * primary_rate) = round(1/3) = 0`
(the code clamps the target length below by 1). -/
theorem resample_length_counterexample :
    (_resample [0] 3 1).length = 1
      ∧ pyRound (((([0] : List ℚ).length : ℚ) / 3) * 1) = 0 := by
  constructor
  · decide
  · decide

end

/-- C5 (amended): when the rates differ and the signal is non-empty the
resampled length is `max 1 (round(duration * target_rate))` with
`duration = len(signal)/source_rate` and `round` rounding half to even —
the code clamps the rounded length below by 1; a zero-length input
resamples to a zero-length output; equal rates pass the signal through
unchanged. -/
theorem resample_length_amended :
    (∀ (signal : List ℚ) (src tgt : ℕ), src ≠ tgt → signal ≠ [] →
        (_resample signal src tgt).length
          = max 1 (pyRound (((signal.length : ℚ) / (src : ℚ)) * (tgt : ℚ))).toNat)
      ∧ (∀ src tgt : ℕ, _resample [] src tgt = [])
      ∧ (∀ (signal : List ℚ) (r : ℕ), _resample signal r r = signal) := by
  refine ⟨?_, ?_, ?_⟩
  · intro signal src tgt hne hnil
    unfold _resample
    rw [if_neg hne, if_neg (by simpa [List.length_eq_zero] using hnil)]
    simp [List.length_map, List.length_range]
  · intro src tgt
    unfold _resample
    by_cases h : src = tgt
    · rw [if_pos h]
    · rw [if_neg h]
      simp
  · intro signal r
    unfold _resample
    rw [if_pos rfl]

section

attribute [local semireducible] Rat.add Rat.mul Rat.inv Rat.sub Rat.ofScientific

/-- C5 witness: a two-sample signal resampled from rate 1 to rate 2 has
length `max 1 (round(2/1 * 2)) = 4`, with both hypotheses discharged. -/
theorem resample_length_witness :
    (1 : ℕ) ≠ 2 ∧ ([0, 0] : List ℚ) ≠ []
      ∧ (_resample [0, 0] 1 2).length
          = max 1 (pyRound (((([0, 0] : List ℚ).length : ℚ) / ((1 : ℕ) : ℚ)) * ((2 : ℕ) : ℚ))).toNat :=
  ⟨by decide, by decide, resample_length_amended.1 [0, 0] 1 2 (by decide) (by decide)⟩

end

/-! ### `export.py`: Markdown transcript rendering -/

/-- Formatting `f"{n:02d}"`: two-digit zero padding (numbers with three or more
digits print in full). -/
def pad2 (n : ℕ) : String :=
  if n < 10 then "0" ++ toString n else toString n

/-- Source `export.py` `_format_timestamp`: `total = int(round(max(0.0, s)))`,
then `MM:SS` with minutes `total // 60` and seconds `total % 60`. -/
def _format_timestamp (seconds : ℚ) : String :=
  let total := (pyRound (max 0 seconds)).toNat
  pad2 (total / 60) ++ ":" ++ pad2 (total % 60)

/-- The 11-line metadata header of the Markdown transcript. The
`datetime.now()` timestamp and the `:.1f`-formatted duration are opaque
strings passed in by the caller, being the only non-deterministic or
float-format-specific parts. -/
def headerLines (sessionId createdAt durationStr modelName diarizationModel
    language : String) : List String :=
  ["# Meeting Transcript",
   "",
   "- Session ID: `" ++ sessionId ++ "`",
   "- Created At: `" ++ createdAt ++ "`",
   "- Duration: `" ++ durationStr ++ "s`",
   "- ASR Model: `" ++ modelName ++ "`",
   "- Diarization Model: `" ++ diarizationModel ++ "`",
   "- Language: `" ++ language ++ "`",
   "",
   "## Transcript",
   ""]

/-- One rendered segment line `[MM:SS] speaker: text`, skipped when the
trimmed text is empty. -/
def segmentLine (m : MergedSeg) : Option String :=
  if pyStrip m.text = "" then none
  else
    some ("[" ++ _format_timestamp m.start ++ "] " ++ m.speaker ++ ": "
      ++ pyStrip m.text)

/-- The per-segment lines of the transcript body. -/
def segmentLines (merged : List MergedSeg) : List String :=
  merged.filterMap segmentLine

/-- The full line list built by `export_outputs`: header, segment lines,
and the `if len(lines) <= 12 and full_text.strip()` Raw Text fallback. -/
def transcriptLines (sessionId createdAt durationStr modelName diarizationModel
    language : String) (merged : List MergedSeg) (fullText : String) :
    List String :=
  let lines := headerLines sessionId createdAt durationStr modelName
      diarizationModel language ++ segmentLines merged
  if lines.length ≤ 12 ∧ pyStrip fullText ≠ "" then
    lines ++ ["", "## Raw Text", "", pyStrip fullText]
  else lines

theorem headerLines_length (a b c d e f : String) :
    (headerLines a b c d e f).length = 11 := rfl

theorem rawText_not_mem_header (a b c d e f : String) :
    "## Raw Text" ∉ headerLines a b c d e f := by
  intro h
  simp only [headerLines, List.mem_cons, List.not_mem_nil, or_false] at h
  rcases h with h | h | h | h | h | h | h | h | h | h | h
  all_goals first
    | exact absurd h (by decide)
    | (have hd := congrArg String.data h
       simp [String.data_append] at hd)

theorem segmentLine_ne_rawText (m : MergedSeg) (l : String)
    (h : segmentLine m = some l) : l ≠ "## Raw Text" := by
  unfold segmentLine at h
  by_cases ht : pyStrip m.text = ""
  · rw [if_pos ht] at h
    cases h
  · rw [if_neg ht] at h
    injection h with h
    subst h
    intro heq
    have hd := congrArg String.data heq
    simp [String.data_append] at hd

theorem rawText_not_mem_segmentLines (merged : List MergedSeg) :
    "## Raw Text" ∉ segmentLines merged := by
  intro h
  rcases List.mem_filterMap.mp h with ⟨m, _, hm⟩
  exact segmentLine_ne_rawText m _ hm rfl

/-- C2 (amended): the rendered transcript contains the `## Raw Text`
fallback section exactly when at most one per-segment line was rendered
(the header is 11 lines, so `len(lines) <= 12` admits one segment line)
and the trimmed raw transcript text is non-empty; consequently a
transcript with no segment lines and empty trimmed raw text has an empty
body, with no Raw Text section. -/
theorem export_raw_text_amended (sid cat dur mn dm lang : String)
    (merged : List MergedSeg) (fullText : String) :
    ("## Raw Text" ∈ transcriptLines sid cat dur mn dm lang merged fullText
        ↔ ((segmentLines merged).length ≤ 1 ∧ pyStrip fullText ≠ ""))
      ∧ transcriptLines sid cat dur mn dm lang merged fullText
          = headerLines sid cat dur mn dm lang ++ segmentLines merged
              ++ (if (segmentLines merged).length ≤ 1 ∧ pyStrip fullText ≠ "" then
                    ["", "## Raw Text", "", pyStrip fullText]
                  else []) := by
  have hlen : (headerLines sid cat dur mn dm lang ++ segmentLines merged).length
      = 11 + (segmentLines merged).length := by
    rw [List.length_append, headerLines_length]
  have hcond : ((headerLines sid cat dur mn dm lang ++ segmentLines merged).length ≤ 12
      ∧ pyStrip fullText ≠ "")
      ↔ ((segmentLines merged).length ≤ 1 ∧ pyStrip fullText ≠ "") := by
    rw [hlen]
    constructor
    · rintro ⟨h1, h2⟩
      exact ⟨by omega, h2⟩
    · rintro ⟨h1, h2⟩
      exact ⟨by omega, h2⟩
  unfold transcriptLines
  by_cases h : ((segmentLines merged).length ≤ 1 ∧ pyStrip fullText ≠ "")
  · rw [if_pos (hcond.mpr h), if_pos h]
    refine ⟨⟨fun _ => h, fun _ => ?_⟩, by rw [List.append_assoc]⟩
    exact List.mem_append_right _
      (List.mem_cons_of_mem _ (List.mem_cons_self _ _))
  · rw [if_neg (fun hc => h (hcond.mp hc)), if_neg h]
    refine ⟨⟨fun hmem => absurd ?_ h, fun hc => absurd hc h⟩, by simp⟩
    rcases List.mem_append.mp hmem with hmem | hmem
    · exact absurd hmem (rawText_not_mem_header sid cat dur mn dm lang)
    · exact absurd hmem (rawText_not_mem_segmentLines merged)

section

attribute [local semireducible] Rat.add Rat.mul Rat.inv Rat.sub Rat.ofScientific

/-- A single non-empty merged segment, exposing the `<= 12` off-by-one. -/
def exportDemoMerged : List MergedSeg :=
  [{ start := 0, stop := 1, text := "hello", speaker := "Speaker 1" }]

/-- C2 counterexample: with exactly one segment line and non-empty raw
text, the Raw Text section IS present, although the claim says it appears
exactly when there are no segment lines at all; and with no segments and
empty raw text the transcript is just the header — an empty body with no
Raw Text section, contradicting the second half of the claim. -/
theorem export_raw_text_counterexample :
    ((segmentLines exportDemoMerged).length = 1
        ∧ "## Raw Text"
            ∈ transcriptLines "s" "t" "3.5" "m" "d" "auto" exportDemoMerged "hello")
      ∧ (segmentLines ([] : List MergedSeg) = []
        ∧ "## Raw Text" ∉ transcriptLines "s" "t" "0.0" "m" "d" "auto" [] ""
        ∧ transcriptLines "s" "t" "0.0" "m" "d" "auto" [] ""
            = headerLines "s" "t" "0.0" "m" "d" "auto") := by
  refine ⟨⟨by decide, by decide⟩, by decide, by decide, by decide⟩

/-- C2 witness: the amended equivalence instantiated at the one-segment
example, with the right-to-left hypothesis pair discharged concretely. -/
theorem export_raw_text_amended_witness :
    (segmentLines exportDemoMerged).length ≤ 1 ∧ pyStrip "hello" ≠ ""
      ∧ "## Raw Text"
          ∈ transcriptLines "s" "t" "3.5" "m" "d" "auto" exportDemoMerged "hello" :=
  ⟨by decide, by decide,
    (export_raw_text_amended "s" "t" "3.5" "m" "d" "auto" exportDemoMerged
        "hello").1.mpr ⟨by decide, by decide⟩⟩

end

/-! ### `main.py`: the worker entry point -/

/-- Python `pathlib.Path(p).name`: the component after the last `/`. -/
def pathName (p : String) : String :=
  String.mk ((p.data.reverse.takeWhile (fun c => c ≠ '/')).reverse)

/-- Python `pathlib.Path(p).stem`: the final component without its suffix (the
suffix starts at the last dot, provided that dot is neither the leading
nor the trailing character of the name). -/
def pathStem (p : String) : String :=
  let name := (pathName p).data
  match name.reverse.findIdx? (fun c => c = '.') with
  | some rIdx =>
      let i := name.length - 1 - rIdx
      if 0 < i ∧ i < name.length - 1 then String.mk (name.take i)
      else String.mk name
  | none => String.mk name

/-- Formatting `f"{q:.1f}"`: one-decimal fixed-point rendering of a rational
(rounding half to even on the tenths, as Python float formatting does;
the negative-zero spelling is outside this abstraction). -/
def format1f (q : ℚ) : String :=
  let scaled := pyRound (q * 10)
  let sign := if scaled < 0 then "-" else ""
  let a := scaled.natAbs
  sign ++ toString (a / 10) ++ "." ++ toString (a % 10)

/-- A value in an emitted result payload: a string or Python `None`
(JSON `null`). -/
inductive PyVal where
  | pstr (s : String)
  | pnone
  deriving Repr, DecidableEq

/-- One NDJSON event on the standard output of the worker: a progress line
(`emit_progress`) or the terminal result line (`emit_result`, whose
keyword arguments are modelled as an association list). -/
inductive Event where
  | progress (stage message : String)
  | result (success : Bool) (kwargs : List (String × PyVal))
  deriving Repr, DecidableEq

/-- The `load_config` result: the worker run configuration. -/
structure WorkerConfig where
  session_id : String
  input_wav_path : String
  output_dir : String
  asr_model : String
  diarization_model : String
  language : String
  save_json : Bool
  keep_wav : Bool
  deriving Repr, DecidableEq

/-- The transcription provider output as consumed by `main`
(`asr_output["segments"]`, `asr_output.get("text", "")`,
`asr_output.get("duration_seconds", 0.0)`). -/
structure AsrOutput where
  segments : List Seg
  text : String
  durationSeconds : ℚ
  deriving Repr, DecidableEq

/-- The parsed command-line arguments (argparse itself is out of scope;
a parse failure never reaches the body of `main`). -/
structure Args where
  bootstrapAsr : Bool
  config : Option String
  asrModel : String
  language : String
  deriving Repr, DecidableEq

/-- Python `if not args.config`: absent or empty-string config paths are
both falsy. -/
def configMissing : Option String → Bool
  | none => true
  | some s => s = ""

/-- Outcome of `_transcribe_with_timeout`: a result, a `TimeoutError`
(carrying `str(exc)`), or any other propagated exception. -/
inductive AsrOutcome where
  | ok (output : AsrOutput)
  | timeout (message : String)
  | err (message : String)
  deriving Repr, DecidableEq

/-- The outcome of every external interaction `main` can perform, fixed
up front: the observable behaviour of the worker is a pure function of the
parsed arguments and this environment. `Except.error` carries `str(exc)`
of the exception the call would raise. `bootstrapWavResult` is the
outcome of `_create_bootstrap_wav()`, which `bootstrap_asr_model` calls
OUTSIDE its try block (and `main` does not wrap the bootstrap branch in
one either), so its error propagates out of the process uncaught. -/
structure RunEnv where
  configLoad : Except String WorkerConfig
  audioExists : Bool
  hfToken : String
  timeoutEnv : Option String
  mixResult : Except String String
  asrResult : AsrOutcome
  diarizationResult : Except String (List Turn)
  exportWriteOk : Except String Unit
  createdAt : String
  bootstrapWavResult : Except String String
  bootstrapResult : Except String Unit

/-- A Python float value as far as `_asr_timeout_seconds` can observe
it: a finite value (kept exact as a rational; the IEEE-754 rounding of
the parsed decimal is outside this abstraction), an infinity, or nan. -/
inductive PyFloat where
  | finite (q : ℚ)
  | inf (negative : Bool)
  | nan
  deriving Repr, DecidableEq

/-- Digits-to-number accumulator for `pyParseFloat`. -/
def natOfDigits (cs : List Char) : ℕ :=
  cs.foldl (fun a c => a * 10 + (c.toNat - 48)) 0

/-- A `digitpart` of the Python float grammar (PEP 515):
`digit (["_"] digit)*` — single underscores are allowed between digits
and are dropped. Returns the collected digits and the unconsumed rest
(an underscore not followed by a digit is left unconsumed, which makes
the enclosing parse fail, as CPython does for `1_`, `1__0`, `1_.5`,
`1_e5`). -/
def digitRunUnd : List Char → List Char × List Char
  | [] => ([], [])
  | c :: rest =>
      if c.isDigit then
        match rest with
        | '_' :: d :: rest2 =>
            if d.isDigit then
              let p := digitRunUnd (d :: rest2)
              (c :: p.1, p.2)
            else ([c], '_' :: d :: rest2)
        | '_' :: [] => ([c], ['_'])
        | [] => ([c], [])
        | d :: rest2 =>
            let p := digitRunUnd (d :: rest2)
            (c :: p.1, p.2)
      else ([], c :: rest)

/-- Exponent part of a Python float literal: optional sign then a
non-empty digit run (underscores between digits allowed), with nothing
left over. -/
def parseExp (cs : List Char) : Option ℤ :=
  let core : List Char → Option ℤ := fun ds =>
    let p := digitRunUnd ds
    if p.1 ≠ [] ∧ p.2 = [] then some ((natOfDigits p.1 : ℤ)) else none
  match cs with
  | '+' :: ds => core ds
  | '-' :: ds => (core ds).map Neg.neg
  | ds => core ds

/-- Mantissa (integer part, optional fraction, at least one digit in one
of them) with optional exponent. -/
def parseMantissaAndExp (cs : List Char) : Option ℚ :=
  let ip := digitRunUnd cs
  let intPart := ip.1
  let rest1 := ip.2
  let fp := match rest1 with
    | '.' :: r => digitRunUnd r
    | _ => ([], rest1)
  let fracPart := fp.1
  let rest2 := match rest1 with
    | '.' :: _ => fp.2
    | _ => rest1
  if intPart = [] ∧ fracPart = [] then none
  else
    let base : ℚ := (natOfDigits intPart : ℚ)
      + (natOfDigits fracPart : ℚ) / ((10 : ℚ) ^ fracPart.length)
    match rest2 with
    | [] => some base
    | c :: rest3 =>
        if c = 'e' ∨ c = 'E' then
          (parseExp rest3).map fun ex => base * (10 : ℚ) ^ ex
        else none

/-- The unsigned body of a Python float literal: the case-insensitive
spellings `nan`, `inf` and `infinity`, or a finite decimal/scientific
literal. -/
def parseUnsignedPyFloat (cs : List Char) : Option PyFloat :=
  let low := cs.map Char.toLower
  if low = "nan".data then some PyFloat.nan
  else if low = "inf".data ∨ low = "infinity".data then some (PyFloat.inf false)
  else (parseMantissaAndExp cs).map PyFloat.finite

/-- Python `float(s)` (`none` ↔ `ValueError`): optional sign, then a
non-finite spelling or a finite literal with PEP 515 underscores.
Non-ASCII digit spellings accepted by CPython are outside this
abstraction. -/
def pyParseFloat (s : String) : Option PyFloat :=
  match (pyStrip s).data with
  | '+' :: cs => parseUnsignedPyFloat cs
  | '-' :: cs =>
      (parseUnsignedPyFloat cs).map fun v =>
        match v with
        | PyFloat.finite q => PyFloat.finite (-q)
        | PyFloat.inf _ => PyFloat.inf true
        | PyFloat.nan => PyFloat.nan
  | cs => parseUnsignedPyFloat cs

/-- Python `timeout <= 0` on the parsed float: false for nan (all nan
comparisons are false) and for positive infinity, true for negative
infinity and non-positive finite values. -/
def pyFloatNonpos : PyFloat → Bool
  | PyFloat.finite q => q ≤ 0
  | PyFloat.inf negative => negative
  | PyFloat.nan => false

/-- Source `main.py` `_asr_timeout_seconds`: parse the stripped value of
`OPPY_ASR_TIMEOUT_SECONDS` (defaulting to the string "900"); a parse
failure (`ValueError`) or a value with `timeout <= 0` falls back to 900.
A parsed nan or positive infinity passes both tests and is returned
as-is. -/
def _asr_timeout_seconds (envValue : Option String) : PyFloat :=
  let raw := pyStrip (envValue.getD "900")
  match pyParseFloat raw with
  | none => PyFloat.finite 900
  | some timeout =>
      if pyFloatNonpos timeout = true then PyFloat.finite 900 else timeout

/-- Dictionary lookup (`dict.get`): first binding of the key. -/
def dictGet? (d : List (String × String)) (k : String) : Option String :=
  (d.find? (fun p => p.1 = k)).map Prod.snd

/-- Result-payload lookup: first binding of the key. -/
def kwargsGet? (d : List (String × PyVal)) (k : String) : Option PyVal :=
  (d.find? (fun p => p.1 = k)).map Prod.snd

/-- The mapping returned by `export_outputs`: `transcript_path` and
`wav_path` always, `json_path` exactly when the JSON sidecar was
written (`save_json`). -/
def export_outputs_paths (outputDir inputWavPath : String) (saveJson : Bool) :
    List (String × String) :=
  let basename := pathStem inputWavPath
  [("transcript_path", outputDir ++ "/" ++ basename ++ ".md"),
   ("wav_path", inputWavPath)]
    ++ if saveJson then [("json_path", outputDir ++ "/" ++ basename ++ ".json")]
      else []

/-- The artifacts of a successful pipeline run (what `export_outputs`
writes and returns). -/
structure ExportRecord where
  mergedSegments : List MergedSeg
  markdownLines : List String
  paths : List (String × String)
  deriving Repr, DecidableEq

/-- The observable outcome of one invocation of the worker entry point:
the emitted event stream, the process exit status, and the export
artifacts of a successful pipeline run. -/
structure RunOutput where
  events : List Event
  exitCode : ℕ
  exported : Option ExportRecord
  crashed : Bool := false
  deriving Repr, DecidableEq

/-- Source `main.py` `main()` (with `bootstrap_asr_model` inlined for the
bootstrap mode), as a pure function of the parsed arguments and the
environment of external-call outcomes. The `transcript_path` and
`wav_path` subscripts of the success emission are modelled with a `""`
default, unreachable because `export_outputs` always returns both keys.
A failing `_create_bootstrap_wav()` happens outside every try block, so
the exception escapes `main`: no event is emitted, `crashed` is set, and
the interpreter exits with status 1 after printing the traceback. -/
def main (args : Args) (env : RunEnv) : RunOutput :=
  if args.bootstrapAsr then
    if pyStrip args.asrModel = "" then
      { events := [.result false
          [("error_code", .pstr "ASR_MODEL_MISSING"),
           ("message", .pstr "Missing ASR model for bootstrap run.")]],
        exitCode := 1, exported := none }
    else
      match env.bootstrapWavResult with
      | .error _ =>
          { events := [], exitCode := 1, exported := none, crashed := true }
      | .ok _ =>
          match env.bootstrapResult with
          | .ok _ =>
              { events := [.progress "asr_bootstrap" "Loading ASR model",
                  .result true
                    [("message",
                       .pstr ("ASR model ready: " ++ pyStrip args.asrModel))]],
                exitCode := 0, exported := none }
          | .error e =>
              { events := [.progress "asr_bootstrap" "Loading ASR model",
                  .result false
                    [("error_code", .pstr "ASR_BOOTSTRAP_FAILED"),
                     ("message", .pstr e)]],
                exitCode := 1, exported := none }
  else if configMissing args.config then
    { events := [.result false
        [("error_code", .pstr "CONFIG_PATH_MISSING"),
         ("message", .pstr "Worker config path is required.")]],
      exitCode := 1, exported := none }
  else
    match env.configLoad with
    | .error e =>
        { events := [.result false
            [("error_code", .pstr "WORKER_EXCEPTION"), ("message", .pstr e)]],
          exitCode := 1, exported := none }
    | .ok config =>
        if !env.audioExists then
          { events := [.result false
              [("error_code", .pstr "INPUT_AUDIO_NOT_FOUND"),
               ("message",
                 .pstr ("Audio file not found: " ++ config.input_wav_path))]],
            exitCode := 1, exported := none }
        else if pyStrip env.hfToken = "" then
          { events := [.result false
              [("error_code", .pstr "HF_TOKEN_MISSING"),
               ("message",
                 .pstr "No Hugging Face token found in worker environment.")]],
            exitCode := 1, exported := none }
        else
          let evs0 := [Event.progress "mix" "Preparing combined audio track"]
          match env.mixResult with
          | .error e =>
              { events := evs0 ++ [.result false
                  [("error_code", .pstr "WORKER_EXCEPTION"),
                   ("message", .pstr e)]],
                exitCode := 1, exported := none }
          | .ok _ =>
              let evs1 := evs0 ++ [Event.progress "asr" "Transcribing with MLX model"]
              match env.asrResult with
              | .timeout msg =>
                  { events := evs1 ++ [.result false
                      [("error_code", .pstr "ASR_TIMEOUT"),
                       ("message", .pstr msg)]],
                    exitCode := 1, exported := none }
              | .err e =>
                  { events := evs1 ++ [.result false
                      [("error_code", .pstr "WORKER_EXCEPTION"),
                       ("message", .pstr e)]],
                    exitCode := 1, exported := none }
              | .ok asrOutput =>
                  let evs2 := evs1
                    ++ [Event.progress "diarization" "Running pyannote diarization"]
                  let step := match env.diarizationResult with
                    | .ok t => (t, (none : Option String), evs2)
                    | .error e =>
                        (([] : List Turn), some e,
                          evs2 ++ [Event.progress "diarization"
                            "Diarization failed, continuing with unknown speakers"])
                  let turns := step.1
                  let warning := step.2.1
                  let evs3 := step.2.2
                    ++ [Event.progress "merge" "Assigning speakers to transcript segments"]
                  let merged := merge_segments_with_speakers asrOutput.segments turns
                  let evs4 := evs3
                    ++ [Event.progress "export" "Writing markdown transcript"]
                  match env.exportWriteOk with
                  | .error e =>
                      { events := evs4 ++ [.result false
                          [("error_code", .pstr "WORKER_EXCEPTION"),
                           ("message", .pstr e)]],
                        exitCode := 1, exported := none }
                  | .ok _ =>
                      let mdLines := transcriptLines config.session_id env.createdAt
                        (format1f asrOutput.durationSeconds) config.asr_model
                        config.diarization_model config.language merged asrOutput.text
                      let paths := export_outputs_paths config.output_dir
                        config.input_wav_path config.save_json
                      let msg := match warning with
                        | none => "Processing complete"
                        | some w =>
                            "Processing complete (diarization fallback: " ++ w ++ ")"
                      { events := evs4 ++ [.result true
                          [("transcript_path",
                             .pstr ((dictGet? paths "transcript_path").getD "")),
                           ("wav_path", .pstr ((dictGet? paths "wav_path").getD "")),
                           ("json_path",
                             match dictGet? paths "json_path" with
                             | some p => PyVal.pstr p
                             | none => PyVal.pnone),
                           ("message", .pstr msg)]],
                        exitCode := 0,
                        exported := some
                          { mergedSegments := merged, markdownLines := mdLines,
                            paths := paths } }

section

attribute [local semireducible] Rat.add Rat.mul Rat.inv Rat.sub Rat.ofScientific

theorem asr_timeout_default :
    _asr_timeout_seconds none = PyFloat.finite 900 := by decide

/-- C8 counterexample: the override "nan" is accepted by `float` (so not
a `ValueError`), is not a positive number (every nan comparison is
false), yet the deadline used is nan — not the 900 fallback the claim
prescribes for any value that is not a parsable positive number. -/
theorem asr_timeout_nan_counterexample :
    pyParseFloat (pyStrip "nan") = some PyFloat.nan
      ∧ _asr_timeout_seconds (some "nan") = PyFloat.nan
      ∧ _asr_timeout_seconds (some "nan") ≠ PyFloat.finite 900 := by
  exact ⟨by decide, by decide, by decide⟩

end

/-- C8 (amended): the transcription deadline is the parsed override when
it parses to a positive finite number of seconds; absence (the default
string "900"), unparsable text (`ValueError`, including misplaced PEP
515 underscores), non-positive finite values, and negative infinity all
fall back to 900; but a parsed nan or positive infinity makes
`timeout <= 0` false and is used as the deadline unchanged. -/
theorem asr_timeout_fallback_amended :
    (_asr_timeout_seconds none = PyFloat.finite 900)
      ∧ (∀ (s : String) (q : ℚ),
          pyParseFloat (pyStrip s) = some (PyFloat.finite q) → 0 < q →
            _asr_timeout_seconds (some s) = PyFloat.finite q)
      ∧ (∀ s : String, pyParseFloat (pyStrip s) = none →
          _asr_timeout_seconds (some s) = PyFloat.finite 900)
      ∧ (∀ (s : String) (q : ℚ),
          pyParseFloat (pyStrip s) = some (PyFloat.finite q) → q ≤ 0 →
            _asr_timeout_seconds (some s) = PyFloat.finite 900)
      ∧ (∀ s : String, pyParseFloat (pyStrip s) = some (PyFloat.inf true) →
          _asr_timeout_seconds (some s) = PyFloat.finite 900)
      ∧ (∀ s : String, pyParseFloat (pyStrip s) = some PyFloat.nan →
          _asr_timeout_seconds (some s) = PyFloat.nan)
      ∧ (∀ s : String, pyParseFloat (pyStrip s) = some (PyFloat.inf false) →
          _asr_timeout_seconds (some s) = PyFloat.inf false) := by
  refine ⟨asr_timeout_default, ?_, ?_, ?_, ?_, ?_, ?_⟩
  · intro s q h hpos
    unfold _asr_timeout_seconds
    simp only [Option.getD_some]
    rw [h]
    simp only [pyFloatNonpos]
    rw [if_neg (by simpa using not_le.mpr hpos)]
  · intro s h
    unfold _asr_timeout_seconds
    simp only [Option.getD_some]
    rw [h]
  · intro s q h hle
    unfold _asr_timeout_seconds
    simp only [Option.getD_some]
    rw [h]
    simp only [pyFloatNonpos]
    rw [if_pos (by simpa using hle)]
  · intro s h
    unfold _asr_timeout_seconds
    simp only [Option.getD_some]
    rw [h]
    rfl
  · intro s h
    unfold _asr_timeout_seconds
    simp only [Option.getD_some]
    rw [h]
    rfl
  · intro s h
    unfold _asr_timeout_seconds
    simp only [Option.getD_some]
    rw [h]
    rfl

section

attribute [local semireducible] Rat.add Rat.mul Rat.inv Rat.sub Rat.ofScientific

/-- C8 witness: the override "12.5" parses to the positive rational 25/2
and becomes the deadline; the underscored literal "1_0" parses to 10 the
same way `float` accepts it. -/
theorem asr_timeout_fallback_amended_witness :
    pyParseFloat (pyStrip "12.5") = some (PyFloat.finite (25 / 2))
      ∧ (0 : ℚ) < 25 / 2
      ∧ _asr_timeout_seconds (some "12.5") = PyFloat.finite (25 / 2)
      ∧ pyParseFloat (pyStrip "1_0") = some (PyFloat.finite 10)
      ∧ _asr_timeout_seconds (some "1_0") = PyFloat.finite 10 :=
  ⟨by decide, by decide,
    asr_timeout_fallback_amended.2.1 "12.5" (25 / 2) (by decide) (by decide),
    by decide, by decide⟩

end

/-- Is this event the terminal result line? -/
def isResultEvent : Event → Bool
  | .result _ _ => true
  | .progress _ _ => false

/-- Is this event a progress line? -/
def isProgressEvent : Event → Bool
  | .progress _ _ => true
  | .result _ _ => false

/-- Arguments of a bootstrap invocation with a non-empty model name. -/
def bootstrapCrashArgs : Args :=
  { bootstrapAsr := true, config := none, asrModel := "m", language := "auto" }

/-- An environment in which `_create_bootstrap_wav()` raises (for example
an `OSError` from `tempfile` or `wave`); every other field is unreachable
on this path. -/
def bootstrapCrashEnv : RunEnv :=
  { configLoad := .error "unreached", audioExists := false, hfToken := "",
    timeoutEnv := none, mixResult := .error "unreached",
    asrResult := .err "unreached", diarizationResult := .error "unreached",
    exportWriteOk := .error "unreached", createdAt := "now",
    bootstrapWavResult := .error "No usable temporary directory found",
    bootstrapResult := .ok () }

/-- C9 counterexample: a bootstrap invocation whose warm-up WAV creation
raises emits NO events at all — zero Result events, not exactly one —
because `_create_bootstrap_wav()` is called outside every try block and
the exception propagates out of the process. -/
theorem single_terminal_result_counterexample :
    (main bootstrapCrashArgs bootstrapCrashEnv).events = []
      ∧ (main bootstrapCrashArgs bootstrapCrashEnv).events.countP
          isResultEvent ≠ 1
      ∧ (main bootstrapCrashArgs bootstrapCrashEnv).crashed = true := by
  exact ⟨rfl, by decide, rfl⟩

/-- C9 (amended): on every invocation that does not crash in the
bootstrap warm-up WAV creation, exactly one Result event is emitted, it
is the last event (all earlier events are Progress), and the exit status
is 0 exactly when the Result has success true and 1 exactly when it has
success false; when `_create_bootstrap_wav()` raises — the one fallible
call outside every try block, reached only in bootstrap mode with a
non-empty model name — the process crashes with uncaught-exception exit
status 1 and emits no Result event at all. -/
theorem single_terminal_result_amended (args : Args) (env : RunEnv) :
    ((main args env).crashed = false →
        ((main args env).events.countP isResultEvent = 1)
          ∧ ((main args env).events.dropLast.all isProgressEvent = true)
          ∧ (∃ b kwargs,
              (main args env).events.getLast? = some (.result b kwargs)
                ∧ ((main args env).exitCode = 0 ↔ b = true)
                ∧ ((main args env).exitCode = 1 ↔ b = false)))
      ∧ ((main args env).crashed = true →
          (main args env).events = [] ∧ (main args env).exitCode = 1)
      ∧ ((main args env).crashed = true ↔
          args.bootstrapAsr = true ∧ ¬ pyStrip args.asrModel = ""
            ∧ ∃ e, env.bootstrapWavResult = Except.error e) := by
  unfold main
  repeat' split
  all_goals
    simp_all [isResultEvent, isProgressEvent, List.countP_cons, List.countP_nil]

theorem mem_merge_nil_speaker (segs : List Seg) (m : MergedSeg)
    (h : m ∈ merge_segments_with_speakers segs []) : m.speaker = "Speaker ?" := by
  simp only [merge_segments_with_speakers] at h
  rcases List.mem_map.mp h with ⟨s, _, rfl⟩
  rfl

/-- C7: whenever the diarization provider raises (any error text `e`)
and every other stage succeeds, the run still terminates with a
success Result and exit code 0, the merge stage runs on an empty turn
list — so every exported merged segment carries `"Speaker ?"` — and the
final message is the fallback notice built from the provider error. -/
theorem diarization_failure_degrades (args : Args) (env : RunEnv) (e : String)
    (asrOut : AsrOutput) (cfg : WorkerConfig) (p : String)
    (hboot : args.bootstrapAsr = false)
    (hcfgm : configMissing args.config = false)
    (hload : env.configLoad = .ok cfg)
    (haudio : env.audioExists = true)
    (htoken : pyStrip env.hfToken ≠ "")
    (hmix : env.mixResult = .ok p)
    (hasr : env.asrResult = .ok asrOut)
    (hdiar : env.diarizationResult = .error e)
    (hexp : env.exportWriteOk = .ok ()) :
    (main args env).exitCode = 0
      ∧ (∃ kwargs, (main args env).events.getLast? = some (.result true kwargs)
          ∧ kwargsGet? kwargs "message"
              = some (.pstr ("Processing complete (diarization fallback: "
                  ++ e ++ ")")))
      ∧ (∃ rec, (main args env).exported = some rec
          ∧ rec.mergedSegments = merge_segments_with_speakers asrOut.segments []
          ∧ ∀ m ∈ rec.mergedSegments, m.speaker = "Speaker ?") := by
  unfold main
  rw [hboot, hcfgm, hload, haudio, hmix, hasr, hdiar, hexp]
  simp only [Bool.not_true, if_neg htoken, Bool.false_eq_true, if_false]
  refine ⟨trivial, ⟨_, rfl, rfl⟩,
    ⟨_, rfl, rfl, fun m hm => mem_merge_nil_speaker _ m hm⟩⟩

/-- A representative run configuration for the concrete end-to-end
witnesses. -/
def demoConfig : WorkerConfig :=
  { session_id := "s", input_wav_path := "rec/a.wav", output_dir := "out",
    asr_model := "m", diarization_model := "d", language := "auto",
    save_json := true, keep_wav := true }

/-- Parsed arguments of a normal (non-bootstrap) run. -/
def demoArgs : Args :=
  { bootstrapAsr := false, config := some "cfg.json", asrModel := "",
    language := "auto" }

/-- A one-segment transcription output. -/
def demoAsrOut : AsrOutput :=
  { segments := [{ start := 0, stop := 1, text := "hi" }], text := "hi",
    durationSeconds := 1 }

/-- An environment in which only diarization fails. -/
def demoEnvDiarFail : RunEnv :=
  { configLoad := .ok demoConfig, audioExists := true, hfToken := "tok",
    timeoutEnv := none, mixResult := .ok "rec/a.wav",
    asrResult := .ok demoAsrOut, diarizationResult := .error "boom",
    exportWriteOk := .ok (), createdAt := "now",
    bootstrapWavResult := .ok "warm.wav", bootstrapResult := .ok () }

/-- C9 witness: a concrete non-crashing run with exactly one Result
event, and the crash characterization discharged at the crashing
environment. -/
theorem single_terminal_result_amended_witness :
    ((main demoArgs demoEnvDiarFail).crashed = false
        ∧ (main demoArgs demoEnvDiarFail).events.countP isResultEvent = 1)
      ∧ ((main bootstrapCrashArgs bootstrapCrashEnv).crashed = true
        ∧ (main bootstrapCrashArgs bootstrapCrashEnv).events = []
        ∧ (main bootstrapCrashArgs bootstrapCrashEnv).exitCode = 1) :=
  by
  have hc : (main demoArgs demoEnvDiarFail).crashed = false := by decide
  exact ⟨⟨hc,
    ((single_terminal_result_amended demoArgs demoEnvDiarFail).1 hc).1⟩,
   rfl,
   (single_terminal_result_amended bootstrapCrashArgs bootstrapCrashEnv).2.1
     rfl⟩

/-- C7 witness: the degraded-success conclusion at a concrete
environment whose diarization raises "boom". -/
theorem diarization_failure_degrades_witness :
    (main demoArgs demoEnvDiarFail).exitCode = 0
      ∧ (∃ kwargs,
          (main demoArgs demoEnvDiarFail).events.getLast?
              = some (.result true kwargs)
            ∧ kwargsGet? kwargs "message"
                = some (.pstr ("Processing complete (diarization fallback: "
                    ++ "boom" ++ ")")))
      ∧ (∃ rec, (main demoArgs demoEnvDiarFail).exported = some rec
          ∧ rec.mergedSegments
              = merge_segments_with_speakers demoAsrOut.segments []
          ∧ ∀ m ∈ rec.mergedSegments, m.speaker = "Speaker ?") :=
  diarization_failure_degrades demoArgs demoEnvDiarFail "boom" demoAsrOut
    demoConfig "rec/a.wav" rfl (by decide) rfl rfl (by decide) rfl rfl rfl rfl

/-- C10: on every successful (exit 0) non-bootstrap run, the terminal
Result payload contains the key `json_path`, bound to the sidecar path
when `save_json` is set and to `None` (JSON null) otherwise — even
though the mapping returned by `export_outputs` contains a `json_path`
entry exactly when the sidecar was produced. -/
theorem result_json_path_key (args : Args) (env : RunEnv) (cfg : WorkerConfig)
    (hboot : args.bootstrapAsr = false)
    (hload : env.configLoad = .ok cfg)
    (hzero : (main args env).exitCode = 0) :
    (∃ kwargs, (main args env).events.getLast? = some (.result true kwargs)
      ∧ kwargsGet? kwargs "json_path"
          = some (if cfg.save_json then
                PyVal.pstr (cfg.output_dir ++ "/" ++ pathStem cfg.input_wav_path
                  ++ ".json")
              else PyVal.pnone))
      ∧ ((dictGet? (export_outputs_paths cfg.output_dir cfg.input_wav_path
            cfg.save_json) "json_path").isSome ↔ cfg.save_json = true) := by
  constructor
  · unfold main at hzero ⊢
    rw [hboot] at hzero ⊢
    simp only [Bool.false_eq_true, if_false] at hzero ⊢
    by_cases hcfgm : configMissing args.config = true
    · rw [if_pos hcfgm] at hzero
      simp at hzero
    rw [if_neg hcfgm] at hzero ⊢
    rw [hload] at hzero ⊢
    dsimp only at hzero ⊢
    by_cases hna : (!env.audioExists) = true
    · rw [if_pos hna] at hzero
      simp at hzero
    rw [if_neg hna] at hzero ⊢
    by_cases htok : pyStrip env.hfToken = ""
    · rw [if_pos htok] at hzero
      simp at hzero
    rw [if_neg htok] at hzero ⊢
    cases hmix : env.mixResult with
    | error e => rw [hmix] at hzero; simp at hzero
    | ok p =>
      rw [hmix] at hzero
      dsimp only at hzero ⊢
      cases hasr : env.asrResult with
      | timeout msg => rw [hasr] at hzero; simp at hzero
      | err e => rw [hasr] at hzero; simp at hzero
      | ok asrOut =>
        rw [hasr] at hzero
        dsimp only at hzero ⊢
        cases hexp : env.exportWriteOk with
        | error e =>
            rw [hexp] at hzero
            cases hdiar : env.diarizationResult with
            | ok t => rw [hdiar] at hzero; simp at hzero
            | error e2 => rw [hdiar] at hzero; simp at hzero
        | ok u =>
            rw [hexp] at hzero
            dsimp only at hzero ⊢
            cases hdiar : env.diarizationResult with
            | ok t =>
                dsimp only at hzero ⊢
                refine ⟨_, rfl, ?_⟩
                by_cases hs : cfg.save_json = true
                · simp [kwargsGet?, export_outputs_paths, dictGet?,
                    List.find?, hs]
                · simp [kwargsGet?, export_outputs_paths, dictGet?,
                    List.find?, hs]
            | error e2 =>
                dsimp only at hzero ⊢
                refine ⟨_, rfl, ?_⟩
                by_cases hs : cfg.save_json = true
                · simp [kwargsGet?, export_outputs_paths, dictGet?,
                    List.find?, hs]
                · simp [kwargsGet?, export_outputs_paths, dictGet?,
                    List.find?, hs]
  · unfold export_outputs_paths dictGet?
    by_cases h : cfg.save_json
    · simp [h, List.find?]
    · simp [h, List.find?]

/-- C10 witness: the `json_path` key of the success payload at a
concrete saved-JSON run. -/
theorem result_json_path_key_witness :
    (∃ kwargs,
        (main demoArgs demoEnvDiarFail).events.getLast?
            = some (.result true kwargs)
          ∧ kwargsGet? kwargs "json_path"
              = some (if demoConfig.save_json then
                    PyVal.pstr (demoConfig.output_dir ++ "/"
                      ++ pathStem demoConfig.input_wav_path ++ ".json")
                  else PyVal.pnone))
      ∧ ((dictGet? (export_outputs_paths demoConfig.output_dir
            demoConfig.input_wav_path demoConfig.save_json) "json_path").isSome
          ↔ demoConfig.save_json = true) :=
  result_json_path_key demoArgs demoEnvDiarFail demoConfig rfl rfl (by decide)

end Oppy
